import Mathlib

/-!
Verification of the activity narration engine (`narrate` in `src/git-wrapper.ts`).

The engine aggregates a window of commits into day-level buckets, extracts
per-commit changed-file deltas, ranks files by change frequency, detects
milestone keywords, and produces a natural-language paragraph.

The version-control collaborator (the wrapped git client) is modelled as a
record of the two calls `narrate` makes: listing the commits of the window
(`log`) and the name-only diff of one commit against its parent (`diff`).
Each call either returns its payload or raises an error; the error type
distinguishes the "commit has no parent" failure from any other failure, a
distinction the claims talk about even though the code cannot observe it.

JavaScript objects used as counters are modelled as insertion-ordered
association lists, JavaScript's stable `Array.prototype.sort` as a stable
insertion sort, and the string operations (`split`, `trim`, `startsWith`,
`includes`, `toLowerCase`) as executable functions on `List Char`.
-/

/-- The two projections of a commit's `Date` that `narrate` uses:
`toLocaleDateString('en-US', weekday long)` and `toDateString()`. -/
structure GDate where
  weekday : String
  calendarDate : String
deriving DecidableEq

/-- A commit as read from `log.all`: hash, message and date. -/
structure Commit where
  hash : String
  message : String
  date : GDate
deriving DecidableEq

/-- An error raised by the collaborator.  `noParent` is the failure of
`git diff commit^ commit` for a parentless (root) commit; `other` is any
other failure. -/
inductive GitError where
  | noParent
  | other (msg : String)
deriving DecidableEq

/-- The version-control collaborator as consumed by `narrate`:
`log` lists the commits of the window, `diff` returns the raw
`--name-only` output for one commit.  Either call may fail. -/
structure Collab where
  log : Except GitError (List Commit)
  diff : Commit → Except GitError String

/-- One entry of `stats.topFiles`: display name, full path, change count. -/
structure TopFile where
  file : String
  path : String
  changes : Nat
deriving DecidableEq

/-- `stats.busiestDay`: weekday name and its commit count. -/
structure BusiestDay where
  day : String
  captures : Nat
deriving DecidableEq

/-- `stats.experiments` (never actually computed by the code). -/
structure Experiments where
  started : Nat
  kept : Nat
  discarded : Nat
deriving DecidableEq

/-- The `stats` object of a narration result. -/
structure NarrationStats where
  totalCaptures : Nat
  activeDays : Nat
  topFiles : List TopFile
  experiments : Experiments
  busiestDay : Option BusiestDay
deriving DecidableEq

/-- The full result of `narrate`. -/
structure Narration where
  success : Bool
  summary : String
  stats : NarrationStats
deriving DecidableEq

/-! ### String primitives (models of the JavaScript string operations) -/

/-- Does `pat` occur at the head of `hay`? (model of a match attempt at one
position of `String.prototype.includes`). -/
def firstMatches : List Char → List Char → Bool
  | [], _ => true
  | _ :: _, [] => false
  | p :: ps, h :: hs => decide (p = h) && firstMatches ps hs

/-- Does `pat` occur anywhere in `hay`? -/
def occursIn (pat : List Char) : List Char → Bool
  | [] => firstMatches pat []
  | h :: hs => firstMatches pat (h :: hs) || occursIn pat hs

/-- Model of `s.includes(pat)`. -/
def strContainsB (s pat : String) : Bool := occursIn pat.data s.data

/-- Model of `s.startsWith('.')`. -/
def startsWithDot (file : String) : Bool :=
  match file.data with
  | [] => false
  | c :: _ => decide (c = '.')

/-- Model of `s.split(sep)` for a one-character separator. -/
def splitOnChar (sep : Char) : List Char → List (List Char)
  | [] => [[]]
  | c :: cs =>
    if c = sep then [] :: splitOnChar sep cs
    else
      match splitOnChar sep cs with
      | [] => [[c]]
      | g :: gs => (c :: g) :: gs

/-- Whitespace for the purposes of `String.prototype.trim`. -/
def isWsp (c : Char) : Bool :=
  decide (c = ' ') || decide (c = '\t') || decide (c = '\n') || decide (c = '\r')

/-- Model of `s.trim()` on the character list. -/
def trimChars (l : List Char) : List Char :=
  ((l.dropWhile isWsp).reverse.dropWhile isWsp).reverse

/-- Model of `s.toLowerCase()` (ASCII, as used on commit messages). -/
def toLowerStr (s : String) : String := String.mk (s.data.map Char.toLower)

/-! ### The accumulators of the per-commit loop -/

/-- `obj[k] = (obj[k] || 0) + 1` on an insertion-ordered association list. -/
def bump (m : List (String × Nat)) (k : String) : List (String × Nat) :=
  match m with
  | [] => [(k, 1)]
  | (k0, v) :: rest => if k0 = k then (k0, v + 1) :: rest else (k0, v) :: bump rest k

/-- `diff.split('\n').filter(f => f.trim())`: the changed-file names of one
commit, extracted from the raw diff output. -/
def diffFiles (out : String) : List String :=
  ((splitOnChar '\n' out.data).map (fun cs => String.mk cs)).filter
    (fun f => decide (trimChars f.data ≠ []))

/-- One iteration of the `for (const commit of commits)` loop: tally the
weekday, then try the diff; any diff failure is caught and ignored. -/
def stepCommit (collab : Collab) (acc : List (String × Nat) × List (String × Nat))
    (c : Commit) : List (String × Nat) × List (String × Nat) :=
  let dayMap := bump acc.1 c.date.weekday
  let fileChanges :=
    match collab.diff c with
    | Except.ok out => (diffFiles out).foldl bump acc.2
    | Except.error _ => acc.2
  (dayMap, fileChanges)

/-- The whole loop: returns the pair `(dayMap, fileChanges)`. -/
def analyzeCommits (collab : Collab) (commits : List Commit) :
    List (String × Nat) × List (String × Nat) :=
  commits.foldl (stepCommit collab) ([], [])

/-! ### Busiest day -/

/-- One iteration of the busiest-day scan: replace the current best only on
a strictly larger count. -/
def pickStep (best : Option BusiestDay) (e : String × Nat) : Option BusiestDay :=
  match best with
  | none => some ⟨e.1, e.2⟩
  | some b => if e.2 > b.captures then some ⟨e.1, e.2⟩ else some b

/-- The busiest-day scan over `Object.entries(dayMap)`. -/
def pickBusiest (entries : List (String × Nat)) : Option BusiestDay :=
  entries.foldl pickStep none

/-- The maximum counter value of a tally (0 for an empty tally). -/
def maxCount (l : List (String × Nat)) : Nat :=
  l.foldr (fun p m => max p.2 m) 0

/-! ### Top files -/

/-- The filter of the top-files ranking:
`!file.includes('.DS_Store') && !file.startsWith('.')`. -/
def keepFile (file : String) : Bool :=
  !(strContainsB file ".DS_Store") && !(startsWithDot file)

/-- Insert an entry behind every entry with an equal or larger count: one
step of a stable descending sort. -/
def insertDesc (x : String × Nat) : List (String × Nat) → List (String × Nat)
  | [] => [x]
  | y :: ys => if y.2 < x.2 then x :: y :: ys else y :: insertDesc x ys

/-- Model of `.sort((a, b) => b[1] - a[1])`: the stable sort by descending
count (ECMAScript sort is stable). -/
def sortDescList (l : List (String × Nat)) : List (String × Nat) :=
  l.foldl (fun acc x => insertDesc x acc) []

/-- Model of `file.split('/').pop() || file`: the final path segment, or the
whole path when that segment is empty. -/
def lastSegment (file : String) : String :=
  match (splitOnChar '/' file.data).getLast? with
  | some s => if s = [] then file else String.mk s
  | none => file

/-- The whole top-files pipeline: filter, stable descending sort, take 5,
project to display name / full path / count. -/
def topFilesOf (fileChanges : List (String × Nat)) : List TopFile :=
  ((sortDescList (fileChanges.filter (fun e => keepFile e.1))).take 5).map
    (fun e => ⟨lastSegment e.1, e.1, e.2⟩)

/-! ### Active days -/

/-- `new Set(...)` insertion, preserving first-occurrence order. -/
def dateStep (s : List String) (c : Commit) : List String :=
  if c.date.calendarDate ∈ s then s else s ++ [c.date.calendarDate]

/-- The distinct calendar-date strings of the window, in first-seen order. -/
def distinctDates (commits : List Commit) : List String :=
  commits.foldl dateStep []

/-! ### Milestones and summary sentences -/

/-- The milestone test on one commit:
`message.toLowerCase()` contains "finish", "complete" or "done". -/
def isMilestone (c : Commit) : Bool :=
  strContainsB (toLowerStr c.message) "finish" ||
    strContainsB (toLowerStr c.message) "complete" ||
    strContainsB (toLowerStr c.message) "done"

/-- The `s` / empty pluralization used by the summary sentences. -/
def pluralS (n : Nat) : String := if n ≠ 1 then "s" else ""

/-- The base sentence of the summary. -/
def baseSentence (days n : Nat) : String :=
  "In the last " ++ (toString days ++ (" days, you made " ++
    (toString n ++ (" capture" ++ (pluralS n ++ ".")))))

/-- The busiest-day sentence. -/
def busiestSentence (b : BusiestDay) : String :=
  " Your most productive day was " ++ (b.day ++ (" with " ++
    (toString b.captures ++ " captures.")))

/-- The most-changed-file sentence. -/
def fileSentence (t : TopFile) : String :=
  " You worked most on \"" ++ (t.file ++ ("\" (" ++
    (toString t.changes ++ (" change" ++ (pluralS t.changes ++ ").")))))

/-- The encouragement sentence. -/
def encSentence (activeDays : Nat) : String :=
  " You were active on " ++ (toString activeDays ++ (" day" ++
    (pluralS activeDays ++ " - consider more consistent capturing.")))

/-- The milestone sentence for a single quoted commit message. -/
def milestoneSentence1 (m : Commit) : String :=
  " Recent milestones: \"" ++ (m.message ++ "\".")

/-- The milestone sentence for two quoted commit messages joined by "and". -/
def milestoneSentence2 (m1 m2 : Commit) : String :=
  " Recent milestones: \"" ++ (m1.message ++ ("\" and \"" ++ (m2.message ++ "\".")))

/-- The busiest-day fragment: present when a busiest day exists and its
count exceeds 1. -/
def busiestFrag (b : Option BusiestDay) : List String :=
  match b with
  | none => []
  | some bd => if 1 < bd.captures then [busiestSentence bd] else []

/-- The top-file fragment: present when `topFiles` is nonempty, quoting its
first entry. -/
def fileFrag (tf : List TopFile) : List String :=
  match tf with
  | [] => []
  | t :: _ => [fileSentence t]

/-- The encouragement fragment, guarded by `activeDays < days / 2` under the
exact (rational) division of JavaScript numbers. -/
def encFrag (activeDays days : Nat) : List String :=
  if (activeDays : ℚ) < (days : ℚ) / 2 then [encSentence activeDays] else []

/-- The milestone fragment: the first at most 2 milestone commits of the
window, in retrieval order. -/
def milestoneFrag (commits : List Commit) : List String :=
  match (commits.filter isMilestone).take 2 with
  | [] => []
  | [m] => [milestoneSentence1 m]
  | m1 :: m2 :: _ => [milestoneSentence2 m1 m2]

/-- The summary of a nonempty window as its list of appended fragments, in
the fixed order of the code; the summary string is their concatenation. -/
def narrateSummaryParts (collab : Collab) (days : Nat) (commits : List Commit) :
    List String :=
  [baseSentence days commits.length]
    ++ busiestFrag (pickBusiest (analyzeCommits collab commits).1)
    ++ fileFrag (topFilesOf (analyzeCommits collab commits).2)
    ++ encFrag (distinctDates commits).length days
    ++ milestoneFrag commits

/-! ### The narrate entry point -/

/-- The all-zero stats object. -/
def emptyStats : NarrationStats := ⟨0, 0, [], ⟨0, 0, 0⟩, none⟩

/-- `error instanceof Error ? error.message : ...`: the message carried by a
collaborator error. -/
def errMsg : GitError → String
  | GitError.noParent => "bad revision"
  | GitError.other m => m

/-- The body of `narrate`, i.e. the code inside the outer `try`: may raise
the collaborator's `log` error, which the `catch` below turns into the
failure result. -/
def narrateBody (collab : Collab) (days : Nat) : Except GitError Narration :=
  match collab.log with
  | Except.error e => Except.error e
  | Except.ok commits =>
    if commits.length = 0 then
      Except.ok ⟨true,
        "No captures in the last " ++ (toString days ++ " days. Time to get back to work!"),
        emptyStats⟩
    else
      Except.ok ⟨true, String.join (narrateSummaryParts collab days commits),
        ⟨commits.length, (distinctDates commits).length,
         topFilesOf (analyzeCommits collab commits).2,
         ⟨0, 0, 0⟩,
         pickBusiest (analyzeCommits collab commits).1⟩⟩

/-- The public `narrate`: the body wrapped in the outer `try`/`catch`. -/
def narrate (collab : Collab) (days : Nat) : Narration :=
  match narrateBody collab days with
  | Except.ok r => r
  | Except.error e => ⟨false, "Could not narrate: " ++ errMsg e, emptyStats⟩

/-- `narrate` with the exception semantics made explicit: a result the
caller would see as a thrown exception is an `Except.error`. -/
def narrateRun (collab : Collab) (days : Nat) : Except GitError Narration :=
  match narrateBody collab days with
  | Except.ok r => Except.ok r
  | Except.error e => Except.ok ⟨false, "Could not narrate: " ++ errMsg e, emptyStats⟩

/-! ### Facts about the string primitives -/

/-- Concatenation of strings concatenates their character lists. -/
theorem dataAppend (a b : String) : (a ++ b).data = a.data ++ b.data := rfl

/-- `firstMatches` is a correct match-at-the-head test. -/
theorem firstMatches_iff (pat hay : List Char) :
    firstMatches pat hay = true ↔ ∃ r, hay = pat ++ r := by
  induction pat generalizing hay with
  | nil => simp [firstMatches]
  | cons p ps ih =>
    cases hay with
    | nil => simp [firstMatches]
    | cons h hs =>
      simp only [firstMatches, Bool.and_eq_true, decide_eq_true_eq, ih, List.cons_append,
        List.cons.injEq]
      constructor
      · rintro ⟨rfl, r, rfl⟩
        exact ⟨r, rfl, rfl⟩
      · rintro ⟨r, rfl, rfl⟩
        exact ⟨rfl, r, rfl⟩

/-- `occursIn` is a correct substring test. -/
theorem occursIn_iff (pat hay : List Char) :
    occursIn pat hay = true ↔ ∃ l r, hay = l ++ (pat ++ r) := by
  induction hay with
  | nil =>
    simp only [occursIn, firstMatches_iff]
    constructor
    · rintro ⟨r, hr⟩
      exact ⟨[], r, by simpa using hr⟩
    · rintro ⟨l, r, hr⟩
      rcases List.append_eq_nil.mp hr.symm with ⟨rfl, h2⟩
      exact ⟨r, by simpa using hr⟩
  | cons h hs ih =>
    simp only [occursIn, Bool.or_eq_true, firstMatches_iff, ih]
    constructor
    · rintro (⟨r, hr⟩ | ⟨l, r, hr⟩)
      · exact ⟨[], r, by simpa using hr⟩
      · exact ⟨h :: l, r, by simp [hr]⟩
    · rintro ⟨l, r, hr⟩
      cases l with
      | nil => exact Or.inl ⟨r, by simpa using hr⟩
      | cons x xs =>
        rw [List.cons_append, List.cons.injEq] at hr
        exact Or.inr ⟨xs, r, hr.2⟩

/-- A string of the form `a ++ (b ++ c)` contains `b`. -/
theorem strContainsB_middle (a b c : String) : strContainsB (a ++ (b ++ c)) b = true := by
  unfold strContainsB
  rw [occursIn_iff]
  exact ⟨a.data, c.data, by simp [dataAppend]⟩

/-- Two appends with leading chunks that disagree at some position inside
both chunks are different strings. -/
theorem strApp_ne (p q x y : String) (i : Nat)
    (h1 : i < p.data.length) (h2 : i < q.data.length)
    (h3 : p.data[i]? ≠ q.data[i]?) : p ++ x ≠ q ++ y := by
  intro h
  have hd : p.data ++ x.data = q.data ++ y.data := by
    have := congrArg String.data h
    simpa [dataAppend] using this
  apply h3
  rw [← @List.getElem?_append_left Char p.data x.data i h1,
      ← @List.getElem?_append_left Char q.data y.data i h2, hd]

/-- The comparison `activeDays < days / 2` under exact rational division
agrees with `2 * activeDays < days` over the integers. -/
theorem ratHalf_iff (a d : Nat) : ((a : ℚ) < (d : ℚ) / 2) ↔ 2 * a < d := by
  rw [lt_div_iff₀ (by norm_num : (0 : ℚ) < 2)]
  constructor
  · intro h
    have h2 : ((2 * a : ℕ) : ℚ) < ((d : ℕ) : ℚ) := by push_cast; linarith
    exact_mod_cast h2
  · intro h
    have h2 : ((2 * a : ℕ) : ℚ) < ((d : ℕ) : ℚ) := by exact_mod_cast h
    push_cast at h2; linarith

/-! ### Unfolding lemmas for the three branches of `narrate` -/

/-- `narrate` on a failing `log` call: the failure result. -/
theorem narrate_err_eq (collab : Collab) (days : Nat) (e : GitError)
    (h : collab.log = Except.error e) :
    narrate collab days = ⟨false, "Could not narrate: " ++ errMsg e, emptyStats⟩ := by
  unfold narrate narrateBody
  rw [h]

/-- `narrate` on an empty window: the friendly zero-stats result. -/
theorem narrate_empty_eq (collab : Collab) (days : Nat)
    (h : collab.log = Except.ok []) :
    narrate collab days = ⟨true,
      "No captures in the last " ++ (toString days ++ " days. Time to get back to work!"),
      emptyStats⟩ := by
  unfold narrate narrateBody
  rw [h]
  simp

/-- `narrate` on a nonempty window: the aggregation result. -/
theorem narrate_ok_eq (collab : Collab) (days : Nat) (commits : List Commit)
    (h : collab.log = Except.ok commits) (hne : commits ≠ []) :
    narrate collab days = ⟨true, String.join (narrateSummaryParts collab days commits),
      ⟨commits.length, (distinctDates commits).length,
       topFilesOf (analyzeCommits collab commits).2, ⟨0, 0, 0⟩,
       pickBusiest (analyzeCommits collab commits).1⟩⟩ := by
  unfold narrate narrateBody
  rw [h]
  simp [List.length_eq_zero, hne]

/-- C9: `narrate` is total at its public interface: whatever the collaborator
does, no exception escapes and a full result object is returned. -/
theorem narrate_total (collab : Collab) (days : Nat) :
    ∃ r : Narration, narrateRun collab days = Except.ok r ∧ narrate collab days = r := by
  unfold narrateRun narrate
  cases narrateBody collab days with
  | ok r => exact ⟨r, rfl, rfl⟩
  | error e => exact ⟨_, rfl, rfl⟩

/-- C2: a window with zero commits yields `success = true`, a summary that
contains the literal day count, and an all-zero stats object with
`busiestDay = null`. -/
theorem narrate_zero_commits (collab : Collab) (days : Nat)
    (h : collab.log = Except.ok []) :
    (narrate collab days).success = true ∧
    strContainsB (narrate collab days).summary (toString days) = true ∧
    (narrate collab days).stats.totalCaptures = 0 ∧
    (narrate collab days).stats.activeDays = 0 ∧
    (narrate collab days).stats.topFiles = [] ∧
    (narrate collab days).stats.busiestDay = none := by
  rw [narrate_empty_eq collab days h]
  exact ⟨rfl,
    strContainsB_middle "No captures in the last " (toString days)
      " days. Time to get back to work!", rfl, rfl, rfl, rfl⟩

/-- A collaborator with an empty window. -/
def collabC2 : Collab := ⟨Except.ok [], fun _ => Except.ok ""⟩

/-- C2 witness: the zero-commit result at a concrete window of 3 days. -/
theorem narrate_zero_commits_inst :
    (narrate collabC2 3).success = true ∧
    strContainsB (narrate collabC2 3).summary "3" = true ∧
    (narrate collabC2 3).stats.busiestDay = none := by
  have h := narrate_zero_commits collabC2 3 rfl
  exact ⟨h.1, by decide, h.2.2.2.2.2⟩

/-! ### Failure behaviour (claims C8 and C1) -/

/-- C8 (amended): `narrate` reports `success = false` exactly when the
commit-listing call fails, and then carries the diagnostic message and the
zeroed stats; a diff failure never produces the failure result. -/
theorem narrate_failure_iff (collab : Collab) (days : Nat) :
    ((narrate collab days).success = false ↔ ∃ e, collab.log = Except.error e) ∧
    (∀ e, collab.log = Except.error e →
      narrate collab days = ⟨false, "Could not narrate: " ++ errMsg e, emptyStats⟩) := by
  constructor
  · constructor
    · intro hs
      cases hlog : collab.log with
      | error e => exact ⟨e, rfl⟩
      | ok commits =>
        exfalso
        by_cases hc : commits = []
        · rw [hc] at hlog
          rw [narrate_empty_eq collab days hlog] at hs
          simp at hs
        · rw [narrate_ok_eq collab days commits hlog hc] at hs
          simp at hs
    · rintro ⟨e, he⟩
      rw [narrate_err_eq collab days e he]
  · intro e he
    exact narrate_err_eq collab days e he

/-- A collaborator whose commit listing fails. -/
def collabC8a : Collab := ⟨Except.error (GitError.other "network down"), fun _ => Except.ok ""⟩

/-- C8 witness: a failing `log` call at a concrete input produces the
failure result with the diagnostic message and zeroed stats. -/
theorem narrate_failure_iff_inst :
    narrate collabC8a 7 = ⟨false, "Could not narrate: network down", emptyStats⟩ := by
  have h := (narrate_failure_iff collabC8a 7).2 (GitError.other "network down") rfl
  rw [h]
  decide

/-- A commit for the C8 counterexample. -/
def cC8 : Commit := ⟨"b2", "second", ⟨"Tuesday", "Tue Jan 02 2024"⟩⟩

/-- A collaborator whose diff call raises an unexpected (not no-parent)
error while the commit listing succeeds. -/
def collabC8b : Collab :=
  ⟨Except.ok [cC8], fun _ => Except.error (GitError.other "permission denied")⟩

/-- C8 counterexample: an unexpected diff error does not make the call
report `success = false` — the claim fails on the code for this input. -/
theorem narrate_unexpected_diff_error_cex :
    collabC8b.diff cC8 = Except.error (GitError.other "permission denied") ∧
    (narrate collabC8b 7).success = true := by
  exact ⟨rfl, by decide⟩

/-- If every diff call of the window fails, the file-change tally stays
empty: the loop accumulates nothing for those commits. -/
theorem analyze_snd_of_all_diff_err (collab : Collab) (l : List Commit)
    (acc : List (String × Nat) × List (String × Nat))
    (hall : ∀ c ∈ l, ∃ e, collab.diff c = Except.error e) :
    (l.foldl (stepCommit collab) acc).2 = acc.2 := by
  induction l generalizing acc with
  | nil => rfl
  | cons c cs ih =>
    obtain ⟨e, he⟩ := hall c (by simp)
    have hstep : stepCommit collab acc c = (bump acc.1 c.date.weekday, acc.2) := by
      simp [stepCommit, he]
    rw [List.foldl_cons, hstep]
    exact ih _ (fun c' hc' => hall c' (by simp [hc']))

/-- C1 (amended): every failure of the diff call is swallowed silently —
the call still succeeds — and a commit whose diff fails contributes zero
file deltas; in particular a window in which every diff call fails ends
with an empty `topFiles`. -/
theorem narrate_diff_failures_swallowed (collab : Collab) (days : Nat)
    (commits : List Commit) (h : collab.log = Except.ok commits)
    (hne : commits ≠ []) :
    (narrate collab days).success = true ∧
    ((∀ c ∈ commits, ∃ e, collab.diff c = Except.error e) →
      (narrate collab days).stats.topFiles = []) := by
  rw [narrate_ok_eq collab days commits h hne]
  refine ⟨rfl, fun hall => ?_⟩
  show topFilesOf (analyzeCommits collab commits).2 = []
  unfold analyzeCommits
  rw [analyze_snd_of_all_diff_err collab commits ([], []) hall]
  rfl

/-- A commit for the C1 counterexample. -/
def cC1 : Commit := ⟨"a1", "first", ⟨"Monday", "Mon Jan 01 2024"⟩⟩

/-- A collaborator whose diff call fails with an error that is not the
no-parent failure. -/
def collabC1 : Collab :=
  ⟨Except.ok [cC1], fun _ => Except.error (GitError.other "disk read failed")⟩

/-- C1 counterexample: a diff failure other than the no-parent one is also
swallowed silently (the call succeeds and the commit contributes zero file
deltas) instead of propagating — the claim fails on the code. -/
theorem narrate_diff_error_not_propagated_cex :
    collabC1.diff cC1 = Except.error (GitError.other "disk read failed") ∧
    (narrate collabC1 7).success = true ∧
    (narrate collabC1 7).stats.topFiles = [] := by
  exact ⟨rfl, by decide, by decide⟩

/-- C1 witness: the amended statement at a concrete input. -/
theorem narrate_diff_failures_swallowed_inst :
    (narrate collabC1 7).success = true ∧ (narrate collabC1 7).stats.topFiles = [] := by
  have h := narrate_diff_failures_swallowed collabC1 7 [cC1] rfl (by decide)
  refine ⟨h.1, h.2 ?_⟩
  intro c hc
  rw [List.mem_singleton] at hc
  subst hc
  exact ⟨GitError.other "disk read failed", rfl⟩

/-! ### Active days (claim C7) -/

/-- The set-insertion fold keeps the accumulator duplicate-free and its
elements are exactly the accumulator's plus the commits' dates. -/
theorem dateFold_spec (l : List Commit) (acc : List String) (hnd : acc.Nodup) :
    (l.foldl dateStep acc).Nodup ∧
    (l.foldl dateStep acc).toFinset =
      acc.toFinset ∪ (l.map (fun c => c.date.calendarDate)).toFinset := by
  induction l generalizing acc with
  | nil => simpa using hnd
  | cons c cs ih =>
    rw [List.foldl_cons]
    by_cases hm : c.date.calendarDate ∈ acc
    · rw [show dateStep acc c = acc from if_pos hm]
      obtain ⟨h1, h2⟩ := ih acc hnd
      refine ⟨h1, ?_⟩
      rw [h2]
      ext x
      simp only [Finset.mem_union, List.mem_toFinset, List.map_cons, List.mem_cons]
      constructor
      · rintro (h | h)
        · exact Or.inl h
        · exact Or.inr (Or.inr h)
      · rintro (h | rfl | h)
        · exact Or.inl h
        · exact Or.inl hm
        · exact Or.inr h
    · rw [show dateStep acc c = acc ++ [c.date.calendarDate] from if_neg hm]
      have hnd' : (acc ++ [c.date.calendarDate]).Nodup := by
        simp [List.nodup_append, hnd, hm]
      obtain ⟨h1, h2⟩ := ih _ hnd'
      refine ⟨h1, ?_⟩
      rw [h2]
      ext x
      simp only [Finset.mem_union, List.mem_toFinset, List.mem_append,
        List.mem_singleton, List.map_cons, List.mem_cons]
      tauto

/-- The length of the deduplicated date list is the number of distinct
calendar dates. -/
theorem distinctDates_card (commits : List Commit) :
    (distinctDates commits).length =
      (commits.map (fun c => c.date.calendarDate)).toFinset.card := by
  obtain ⟨h1, h2⟩ := dateFold_spec commits [] List.nodup_nil
  unfold distinctDates
  rw [← List.toFinset_card_of_nodup h1, h2]
  simp

/-- C7: `activeDays` is the number of distinct calendar dates among the
commits of the window — not the number of commits and not the number of
distinct weekdays. -/
theorem narrate_activeDays_distinct_dates (collab : Collab) (days : Nat)
    (commits : List Commit) (h : collab.log = Except.ok commits)
    (hne : commits ≠ []) :
    (narrate collab days).stats.activeDays =
      (commits.map (fun c => c.date.calendarDate)).toFinset.card := by
  rw [narrate_ok_eq collab days commits h hne]
  exact distinctDates_card commits

/-- Two commits on the same calendar date. -/
def cC7a : Commit := ⟨"d1", "work", ⟨"Wednesday", "Wed Jan 03 2024"⟩⟩

/-- A second commit on the same calendar date as `cC7a`. -/
def cC7b : Commit := ⟨"d2", "more work", ⟨"Wednesday", "Wed Jan 03 2024"⟩⟩

/-- A collaborator with two same-date commits. -/
def collabC7 : Collab := ⟨Except.ok [cC7a, cC7b], fun _ => Except.ok "notes.txt"⟩

/-- C7 witness: two commits on the same date contribute 1 to `activeDays`. -/
theorem narrate_activeDays_distinct_dates_inst :
    (narrate collabC7 7).stats.activeDays = 1 := by
  rw [narrate_activeDays_distinct_dates collabC7 7 [cC7a, cC7b] rfl (by decide)]
  decide

/-! ### Busiest day (claim C4) -/

/-- The busiest-day fold, started from a current best, returns the start
unless the remaining tally strictly beats it, in which case it returns the
first entry achieving the maximum. -/
theorem pickGo_eq (l : List (String × Nat)) : ∀ b0 : BusiestDay,
    l.foldl pickStep (some b0) =
      if maxCount l ≤ b0.captures then some b0
      else (l.find? (fun p => decide (maxCount l ≤ p.2))).map
        (fun p => (⟨p.1, p.2⟩ : BusiestDay)) := by
  induction l with
  | nil => intro b0; simp [maxCount]
  | cons e rest ih =>
    intro b0
    rw [List.foldl_cons]
    have hmc : maxCount (e :: rest) = max e.2 (maxCount rest) := rfl
    have hout : ∀ h : ¬ maxCount (e :: rest) ≤ b0.captures,
        (if maxCount (e :: rest) ≤ b0.captures then some b0
          else ((e :: rest).find? (fun p => decide (maxCount (e :: rest) ≤ p.2))).map
            (fun p => (⟨p.1, p.2⟩ : BusiestDay))) =
        ((e :: rest).find? (fun p => decide (maxCount (e :: rest) ≤ p.2))).map
          (fun p => (⟨p.1, p.2⟩ : BusiestDay)) := fun h => if_neg h
    by_cases hgt : e.2 > b0.captures
    · rw [show pickStep (some b0) e = some ⟨e.1, e.2⟩ by simp [pickStep, hgt],
        ih ⟨e.1, e.2⟩,
        hout (by simp only [hmc, max_le_iff]; omega)]
      by_cases hM : maxCount rest ≤ e.2
      · rw [if_pos (show maxCount rest ≤ (⟨e.1, e.2⟩ : BusiestDay).captures from hM),
          List.find?_cons_of_pos _
            (by simp only [hmc, decide_eq_true_eq, max_le_iff]; omega)]
        rfl
      · rw [if_neg (show ¬ maxCount rest ≤ (⟨e.1, e.2⟩ : BusiestDay).captures from hM),
          List.find?_cons_of_neg _
            (by simp only [hmc, decide_eq_true_eq, max_le_iff]; omega),
          show maxCount (e :: rest) = maxCount rest by
            rw [hmc]; exact max_eq_right (by omega)]
    · rw [show pickStep (some b0) e = some b0 by simp [pickStep, hgt], ih b0]
      by_cases hM : maxCount rest ≤ b0.captures
      · rw [if_pos hM,
          if_pos (show maxCount (e :: rest) ≤ b0.captures by
            simp only [hmc, max_le_iff]; omega)]
      · rw [if_neg hM,
          hout (by simp only [hmc, max_le_iff]; omega),
          List.find?_cons_of_neg _
            (by simp only [hmc, decide_eq_true_eq, max_le_iff]; omega),
          show maxCount (e :: rest) = maxCount rest by
            rw [hmc]; exact max_eq_right (by omega)]

/-- The busiest-day scan returns the first tally entry achieving the
maximal count (first-seen wins ties, strict replacement). -/
theorem pickBusiest_eq (l : List (String × Nat)) :
    pickBusiest l = (l.find? (fun p => decide (maxCount l ≤ p.2))).map
      (fun p => (⟨p.1, p.2⟩ : BusiestDay)) := by
  cases l with
  | nil => rfl
  | cons e rest =>
    unfold pickBusiest
    rw [List.foldl_cons, show pickStep none e = some ⟨e.1, e.2⟩ from rfl, pickGo_eq]
    have hmc : maxCount (e :: rest) = max e.2 (maxCount rest) := rfl
    by_cases hM : maxCount rest ≤ e.2
    · rw [if_pos (show maxCount rest ≤ (⟨e.1, e.2⟩ : BusiestDay).captures from hM),
        List.find?_cons_of_pos _
          (by simp only [hmc, decide_eq_true_eq, max_le_iff]; omega)]
      rfl
    · rw [if_neg (show ¬ maxCount rest ≤ (⟨e.1, e.2⟩ : BusiestDay).captures from hM),
        List.find?_cons_of_neg _
          (by simp only [hmc, decide_eq_true_eq, max_le_iff]; omega),
        show maxCount (e :: rest) = maxCount rest by
          rw [hmc]; exact max_eq_right (by omega)]

/-- The fold from a current best always yields a result. -/
theorem pickGo_isSome (l : List (String × Nat)) : ∀ b0 : BusiestDay,
    ∃ b, l.foldl pickStep (some b0) = some b := by
  induction l with
  | nil => exact fun b0 => ⟨b0, rfl⟩
  | cons e rest ih =>
    intro b0
    have hstep : ∃ b1, pickStep (some b0) e = some b1 := by
      by_cases h : e.2 > b0.captures <;> simp [pickStep, h]
    obtain ⟨b1, hb1⟩ := hstep
    rw [List.foldl_cons, hb1]
    exact ih b1

/-- A nonempty tally always produces a busiest day. -/
theorem pickBusiest_isSome (l : List (String × Nat)) (hne : l ≠ []) :
    ∃ b, pickBusiest l = some b := by
  cases l with
  | nil => exact absurd rfl hne
  | cons e rest =>
    unfold pickBusiest
    rw [List.foldl_cons, show pickStep none e = some ⟨e.1, e.2⟩ from rfl]
    exact pickGo_isSome rest ⟨e.1, e.2⟩

/-- `bump` never returns the empty tally. -/
theorem bump_ne_nil (m : List (String × Nat)) (k : String) : bump m k ≠ [] := by
  cases m with
  | nil => simp [bump]
  | cons p rest =>
    obtain ⟨k0, v⟩ := p
    by_cases h : k0 = k <;> simp [bump, h]

/-- The loop keeps the weekday tally nonempty once it is nonempty. -/
theorem analyze_fst_keeps_ne (collab : Collab) (l : List Commit) :
    ∀ acc : List (String × Nat) × List (String × Nat), acc.1 ≠ [] →
      (l.foldl (stepCommit collab) acc).1 ≠ [] := by
  induction l with
  | nil => exact fun acc h => h
  | cons c cs ih =>
    intro acc _
    rw [List.foldl_cons]
    exact ih _ (bump_ne_nil acc.1 c.date.weekday)

/-- A nonempty window yields a nonempty weekday tally. -/
theorem analyze_fst_ne_nil (collab : Collab) (commits : List Commit)
    (hne : commits ≠ []) : (analyzeCommits collab commits).1 ≠ [] := by
  cases commits with
  | nil => exact absurd rfl hne
  | cons c cs =>
    unfold analyzeCommits
    rw [List.foldl_cons]
    exact analyze_fst_keeps_ne collab cs _ (bump_ne_nil [] c.date.weekday)

/-- C4: `busiestDay` is the first weekday of the tally achieving the
maximal per-weekday commit count (first-seen wins ties), and it exists for
every nonempty window. -/
theorem narrate_busiestDay_spec (collab : Collab) (days : Nat)
    (commits : List Commit) (h : collab.log = Except.ok commits)
    (hne : commits ≠ []) :
    (∃ b, (narrate collab days).stats.busiestDay = some b) ∧
    (narrate collab days).stats.busiestDay =
      ((analyzeCommits collab commits).1.find?
        (fun p => decide (maxCount (analyzeCommits collab commits).1 ≤ p.2))).map
        (fun p => (⟨p.1, p.2⟩ : BusiestDay)) := by
  rw [narrate_ok_eq collab days commits h hne]
  exact ⟨pickBusiest_isSome _ (analyze_fst_ne_nil collab commits hne),
    pickBusiest_eq _⟩

/-- A Monday commit. -/
def cM1 : Commit := ⟨"m1", "w1", ⟨"Monday", "Mon Jan 01 2024"⟩⟩

/-- A second Monday commit. -/
def cM2 : Commit := ⟨"m2", "w2", ⟨"Monday", "Mon Jan 08 2024"⟩⟩

/-- A third Monday commit. -/
def cM3 : Commit := ⟨"m3", "w3", ⟨"Monday", "Mon Jan 15 2024"⟩⟩

/-- A Tuesday commit. -/
def cT1 : Commit := ⟨"t1", "w4", ⟨"Tuesday", "Tue Jan 02 2024"⟩⟩

/-- A window with 3 Monday commits and 1 Tuesday commit. -/
def collabC4 : Collab := ⟨Except.ok [cT1, cM1, cM2, cM3], fun _ => Except.ok "a.txt"⟩

/-- C4 witness: 3 commits on Monday and 1 on Tuesday give
`busiestDay = (Monday, 3)`. -/
theorem narrate_busiestDay_spec_inst :
    (narrate collabC4 7).stats.busiestDay = some ⟨"Monday", 3⟩ := by
  rw [(narrate_busiestDay_spec collabC4 7 [cT1, cM1, cM2, cM3] rfl (by decide)).2]
  decide

/-! ### Top files (claim C3): the stable descending sort -/

/-- Membership in an insertion step. -/
theorem insertDesc_mem (x a : String × Nat) (l : List (String × Nat)) :
    a ∈ insertDesc x l ↔ a = x ∨ a ∈ l := by
  induction l with
  | nil => simp [insertDesc]
  | cons y ys ih =>
    by_cases h : y.2 < x.2
    · simp [insertDesc, h]
    · simp [insertDesc, h, ih]
      tauto

/-- An insertion step is a permutation. -/
theorem insertDesc_perm (x : String × Nat) (l : List (String × Nat)) :
    (insertDesc x l).Perm (x :: l) := by
  induction l with
  | nil => simp [insertDesc]
  | cons y ys ih =>
    by_cases h : y.2 < x.2
    · simp [insertDesc, h]
    · rw [show insertDesc x (y :: ys) = y :: insertDesc x ys by simp [insertDesc, h]]
      exact (ih.cons y).trans (List.Perm.swap x y ys)

/-- An insertion step preserves descending sortedness. -/
theorem insertDesc_sorted (x : String × Nat) (l : List (String × Nat))
    (h : l.Pairwise (fun a b => b.2 ≤ a.2)) :
    (insertDesc x l).Pairwise (fun a b => b.2 ≤ a.2) := by
  induction l with
  | nil => simp [insertDesc]
  | cons y ys ih =>
    rw [List.pairwise_cons] at h
    obtain ⟨hy, hys⟩ := h
    by_cases hlt : y.2 < x.2
    · rw [show insertDesc x (y :: ys) = x :: y :: ys by simp [insertDesc, hlt],
        List.pairwise_cons]
      refine ⟨?_, List.pairwise_cons.mpr ⟨hy, hys⟩⟩
      intro z hz
      rcases List.mem_cons.mp hz with rfl | hz'
      · omega
      · have := hy z hz'
        omega
    · rw [show insertDesc x (y :: ys) = y :: insertDesc x ys by simp [insertDesc, hlt],
        List.pairwise_cons]
      refine ⟨?_, ih hys⟩
      intro z hz
      rcases (insertDesc_mem x z ys).mp hz with rfl | hz'
      · omega
      · exact hy z hz'

/-- The insertion-sort fold preserves sortedness of the accumulator. -/
theorem sortGo_sorted (l : List (String × Nat)) :
    ∀ acc : List (String × Nat), acc.Pairwise (fun a b => b.2 ≤ a.2) →
      (l.foldl (fun acc x => insertDesc x acc) acc).Pairwise (fun a b => b.2 ≤ a.2) := by
  induction l with
  | nil => exact fun acc h => h
  | cons x xs ih =>
    intro acc h
    rw [List.foldl_cons]
    exact ih _ (insertDesc_sorted x acc h)

/-- The sort output is sorted by descending change count. -/
theorem sortDescList_sorted (l : List (String × Nat)) :
    (sortDescList l).Pairwise (fun a b => b.2 ≤ a.2) :=
  sortGo_sorted l [] (by simp)

/-- The insertion-sort fold permutes its input onto the accumulator. -/
theorem sortGo_perm (l : List (String × Nat)) :
    ∀ acc : List (String × Nat),
      (l.foldl (fun acc x => insertDesc x acc) acc).Perm (l ++ acc) := by
  induction l with
  | nil => intro acc; simp
  | cons x xs ih =>
    intro acc
    rw [List.foldl_cons]
    refine (ih (insertDesc x acc)).trans ?_
    refine (List.Perm.append_left xs (insertDesc_perm x acc)).trans ?_
    exact List.perm_middle

/-- The sort output is a permutation of its input. -/
theorem sortDescList_perm (l : List (String × Nat)) : (sortDescList l).Perm l := by
  have h := sortGo_perm l []
  simpa [sortDescList] using h

/-- Stability of one insertion step, seen through the class of entries with
a fixed count: the inserted entry lands at the end of its class. -/
theorem insertDesc_filter_eq (x : String × Nat) (l : List (String × Nat)) (c : Nat)
    (h : l.Pairwise (fun a b => b.2 ≤ a.2)) :
    (insertDesc x l).filter (fun p => p.2 == c) =
      if x.2 = c then l.filter (fun p => p.2 == c) ++ [x]
      else l.filter (fun p => p.2 == c) := by
  induction l with
  | nil =>
    by_cases hx : x.2 = c <;> simp [insertDesc, List.filter_cons, hx]
  | cons y ys ih =>
    rw [List.pairwise_cons] at h
    obtain ⟨hy, hys⟩ := h
    by_cases hlt : y.2 < x.2
    · rw [show insertDesc x (y :: ys) = x :: y :: ys by simp [insertDesc, hlt]]
      by_cases hx : x.2 = c
      · rw [if_pos hx]
        have hnil : (y :: ys).filter (fun p => p.2 == c) = [] := by
          rw [List.filter_eq_nil_iff]
          intro a ha
          rcases List.mem_cons.mp ha with rfl | ha'
          · simp
            omega
          · have := hy a ha'
            simp
            omega
        rw [List.filter_cons_of_pos (by simp [hx]), hnil]
        simp
      · rw [if_neg hx, List.filter_cons_of_neg (by simp [hx])]
    · rw [show insertDesc x (y :: ys) = y :: insertDesc x ys by simp [insertDesc, hlt]]
      by_cases hyc : y.2 = c
      · rw [@List.filter_cons_of_pos _ _ y (insertDesc x ys) (by simp [hyc]), ih hys,
          @List.filter_cons_of_pos _ _ y ys (by simp [hyc])]
        by_cases hx : x.2 = c <;> simp [hx]
      · rw [@List.filter_cons_of_neg _ _ y (insertDesc x ys) (by simp [hyc]), ih hys,
          @List.filter_cons_of_neg _ _ y ys (by simp [hyc])]

/-- Stability of the whole fold: per count class, the output is the
accumulator's class followed by the input's class in input order. -/
theorem sortGo_filter (l : List (String × Nat)) (c : Nat) :
    ∀ acc : List (String × Nat), acc.Pairwise (fun a b => b.2 ≤ a.2) →
      (l.foldl (fun acc x => insertDesc x acc) acc).filter (fun p => p.2 == c) =
        acc.filter (fun p => p.2 == c) ++ l.filter (fun p => p.2 == c) := by
  induction l with
  | nil => intro acc _; simp
  | cons x xs ih =>
    intro acc h
    rw [List.foldl_cons, ih _ (insertDesc_sorted x acc h), insertDesc_filter_eq x acc c h]
    by_cases hx : x.2 = c
    · rw [if_pos hx, List.filter_cons_of_pos (by simp [hx])]
      simp
    · rw [if_neg hx, List.filter_cons_of_neg (by simp [hx])]

/-- The sort is stable: it does not reorder entries of equal count. -/
theorem sortDescList_filter (l : List (String × Nat)) (c : Nat) :
    (sortDescList l).filter (fun p => p.2 == c) = l.filter (fun p => p.2 == c) := by
  have h := sortGo_filter l c [] (by simp)
  simpa [sortDescList] using h

/-- The full paths and counts of `topFilesOf` are the first 5 entries of
the sorted, filtered tally. -/
theorem topFilesOf_map_path (fileChanges : List (String × Nat)) :
    (topFilesOf fileChanges).map (fun e => (e.path, e.changes)) =
      (sortDescList (fileChanges.filter (fun e => keepFile e.1))).take 5 := by
  unfold topFilesOf
  rw [List.map_map,
    show ((fun e : TopFile => (e.path, e.changes)) ∘
      fun e : String × Nat => (⟨lastSegment e.1, e.1, e.2⟩ : TopFile)) = id from rfl,
    List.map_id]

/-- The top-files pipeline: at most 5 entries, sorted by descending count,
stable on ties, every entry passing the hidden-file filter, display name
equal to the final path segment. -/
theorem topFilesOf_spec (FC : List (String × Nat)) :
    (topFilesOf FC).length ≤ 5 ∧
    (topFilesOf FC).Pairwise (fun a b => b.changes ≤ a.changes) ∧
    (∀ e ∈ topFilesOf FC,
      startsWithDot e.path = false ∧ strContainsB e.path ".DS_Store" = false) ∧
    (∀ e ∈ topFilesOf FC, e.file = lastSegment e.path) ∧
    (∀ c : Nat,
      (((topFilesOf FC).map (fun e => (e.path, e.changes))).filter
        (fun p => p.2 == c)).Sublist
        ((FC.filter (fun e => keepFile e.1)).filter (fun p => p.2 == c))) := by
  have hmem : ∀ e ∈ topFilesOf FC, ∃ p, p ∈ FC.filter (fun e => keepFile e.1) ∧
      e = (⟨lastSegment p.1, p.1, p.2⟩ : TopFile) := by
    intro e he
    unfold topFilesOf at he
    rcases List.mem_map.mp he with ⟨p, hp, rfl⟩
    have hp' : p ∈ sortDescList (FC.filter fun e => keepFile e.1) :=
      (List.take_sublist 5 _).subset hp
    exact ⟨p, (sortDescList_perm _).subset hp', rfl⟩
  refine ⟨?_, ?_, ?_, ?_, ?_⟩
  · simp only [topFilesOf, List.length_map, List.length_take]
    exact min_le_left _ _
  · unfold topFilesOf
    refine List.pairwise_map.mpr ?_
    exact List.Pairwise.sublist (List.take_sublist 5 _) (sortDescList_sorted _)
  · intro e he
    obtain ⟨p, hp, rfl⟩ := hmem e he
    have hk : keepFile p.1 = true := (List.mem_filter.mp hp).2
    simp only [keepFile, Bool.and_eq_true, Bool.not_eq_true'] at hk
    exact ⟨hk.2, hk.1⟩
  · intro e he
    obtain ⟨p, hp, rfl⟩ := hmem e he
    rfl
  · intro c
    rw [topFilesOf_map_path, ← sortDescList_filter (FC.filter fun e => keepFile e.1) c]
    exact List.Sublist.filter _ (List.take_sublist 5 _)

/-- C3: `topFiles` has at most 5 entries, is sorted by descending change
count with ties kept in first-encountered order (the per-count classes of
the result are subsequences of the tally's), never contains a path that
starts with a dot or contains `.DS_Store`, and each entry's display name is
the final segment of its full path. -/
theorem narrate_topFiles_spec (collab : Collab) (days : Nat) (commits : List Commit)
    (h : collab.log = Except.ok commits) (hne : commits ≠ []) :
    (narrate collab days).stats.topFiles.length ≤ 5 ∧
    ((narrate collab days).stats.topFiles).Pairwise (fun a b => b.changes ≤ a.changes) ∧
    (∀ e ∈ (narrate collab days).stats.topFiles,
      startsWithDot e.path = false ∧ strContainsB e.path ".DS_Store" = false) ∧
    (∀ e ∈ (narrate collab days).stats.topFiles, e.file = lastSegment e.path) ∧
    (∀ c : Nat,
      ((((narrate collab days).stats.topFiles).map (fun e => (e.path, e.changes))).filter
        (fun p => p.2 == c)).Sublist
        (((analyzeCommits collab commits).2.filter (fun e => keepFile e.1)).filter
          (fun p => p.2 == c))) := by
  rw [narrate_ok_eq collab days commits h hne]
  exact topFilesOf_spec (analyzeCommits collab commits).2

/-- A first commit for the C3 witness. -/
def cF1 : Commit := ⟨"x1", "edit b", ⟨"Friday", "Fri Jan 05 2024"⟩⟩

/-- A second commit for the C3 witness. -/
def cF2 : Commit := ⟨"x2", "edit a and b", ⟨"Saturday", "Sat Jan 06 2024"⟩⟩

/-- A window where `b.txt` changes twice, `a.txt` once, and `.DS_Store`
twice (excluded despite its count). -/
def collabC3 : Collab :=
  ⟨Except.ok [cF1, cF2], fun c =>
    if c.hash = "x1" then Except.ok "b.txt\n.DS_Store"
    else Except.ok "a.txt\nb.txt\n.DS_Store"⟩

/-- C3 witness: the ranking at a concrete window — `.DS_Store` is excluded
although it changed as often as the top entry. -/
theorem narrate_topFiles_spec_inst :
    (narrate collabC3 7).stats.topFiles.length ≤ 5 ∧
    (narrate collabC3 7).stats.topFiles =
      [⟨"b.txt", "b.txt", 2⟩, ⟨"a.txt", "a.txt", 1⟩] := by
  exact ⟨(narrate_topFiles_spec collabC3 7 [cF1, cF2] rfl (by decide)).1, by decide⟩

/-! ### The encouragement sentence (claim C5) -/

/-- The encouragement sentence differs from the base sentence. -/
theorem enc_ne_base (a days n : Nat) : encSentence a ≠ baseSentence days n := by
  unfold encSentence baseSentence
  exact strApp_ne _ _ _ _ 0 (by decide) (by decide) (by decide)

/-- The encouragement sentence differs from the busiest-day sentence. -/
theorem enc_ne_busiest (a : Nat) (b : BusiestDay) : encSentence a ≠ busiestSentence b := by
  unfold encSentence busiestSentence
  exact strApp_ne _ _ _ _ 4 (by decide) (by decide) (by decide)

/-- The encouragement sentence differs from the top-file sentence. -/
theorem enc_ne_file (a : Nat) (t : TopFile) : encSentence a ≠ fileSentence t := by
  unfold encSentence fileSentence
  exact strApp_ne _ _ _ _ 6 (by decide) (by decide) (by decide)

/-- The encouragement sentence differs from the one-milestone sentence. -/
theorem enc_ne_ms1 (a : Nat) (m : Commit) : encSentence a ≠ milestoneSentence1 m := by
  unfold encSentence milestoneSentence1
  exact strApp_ne _ _ _ _ 1 (by decide) (by decide) (by decide)

/-- The encouragement sentence differs from the two-milestone sentence. -/
theorem enc_ne_ms2 (a : Nat) (m1 m2 : Commit) : encSentence a ≠ milestoneSentence2 m1 m2 := by
  unfold encSentence milestoneSentence2
  exact strApp_ne _ _ _ _ 1 (by decide) (by decide) (by decide)

/-- The encouragement sentence never sits in the busiest-day fragment. -/
theorem enc_not_mem_busiestFrag (a : Nat) (bd : Option BusiestDay) :
    encSentence a ∉ busiestFrag bd := by
  cases bd with
  | none => simp [busiestFrag]
  | some b =>
    by_cases h : 1 < b.captures
    · simp [busiestFrag, h]
      exact enc_ne_busiest a b
    · simp [busiestFrag, h]

/-- The encouragement sentence never sits in the top-file fragment. -/
theorem enc_not_mem_fileFrag (a : Nat) (tf : List TopFile) :
    encSentence a ∉ fileFrag tf := by
  cases tf with
  | nil => simp [fileFrag]
  | cons t ts =>
    simp [fileFrag]
    exact enc_ne_file a t

/-- The encouragement sentence never sits in the milestone fragment. -/
theorem enc_not_mem_milestoneFrag (a : Nat) (commits : List Commit) :
    encSentence a ∉ milestoneFrag commits := by
  unfold milestoneFrag
  cases h2 : (commits.filter isMilestone).take 2 with
  | nil => simp
  | cons m1 tl =>
    cases tl with
    | nil =>
      simp
      exact enc_ne_ms1 a m1
    | cons m2 tl2 =>
      simp
      exact enc_ne_ms2 a m1 m2

/-- The encouragement sentence is a fragment of the summary exactly when
`2 * activeDays < windowDays`. -/
theorem enc_mem_parts_iff (collab : Collab) (days : Nat) (commits : List Commit) :
    (encSentence (distinctDates commits).length ∈
      narrateSummaryParts collab days commits) ↔
      2 * (distinctDates commits).length < days := by
  unfold narrateSummaryParts
  constructor
  · intro hmem
    rcases List.mem_append.mp hmem with hmem | hm
    · rcases List.mem_append.mp hmem with hmem | he
      · rcases List.mem_append.mp hmem with hmem | hf
        · rcases List.mem_append.mp hmem with hb | hbb
          · exact absurd (List.mem_singleton.mp hb) (enc_ne_base _ days commits.length)
          · exact absurd hbb (enc_not_mem_busiestFrag _ _)
        · exact absurd hf (enc_not_mem_fileFrag _ _)
      · unfold encFrag at he
        by_cases hc : ((distinctDates commits).length : ℚ) < (days : ℚ) / 2
        · exact (ratHalf_iff _ days).mp hc
        · rw [if_neg hc] at he
          exact absurd he (List.not_mem_nil _)
    · exact absurd hm (enc_not_mem_milestoneFrag _ commits)
  · intro hc
    have hc' : ((distinctDates commits).length : ℚ) < (days : ℚ) / 2 :=
      (ratHalf_iff _ days).mpr hc
    refine List.mem_append.mpr (Or.inl (List.mem_append.mpr (Or.inr ?_)))
    unfold encFrag
    rw [if_pos hc']
    exact List.mem_singleton.mpr rfl

/-- C5: the encouragement sentence is appended to the summary exactly when
`activeDays < windowDays / 2` under exact (rational) division, which over
the integers is `2 * activeDays < windowDays` — not integer division. -/
theorem narrate_encouragement_iff (collab : Collab) (days : Nat)
    (commits : List Commit) (h : collab.log = Except.ok commits)
    (hne : commits ≠ []) :
    (narrate collab days).summary =
      String.join (narrateSummaryParts collab days commits) ∧
    ((encSentence (distinctDates commits).length ∈
        narrateSummaryParts collab days commits) ↔
      2 * (distinctDates commits).length < days) ∧
    (((distinctDates commits).length : ℚ) < (days : ℚ) / 2 ↔
      2 * (distinctDates commits).length < days) := by
  refine ⟨?_, enc_mem_parts_iff collab days commits, ratHalf_iff _ days⟩
  rw [narrate_ok_eq collab days commits h hne]

/-- A commit on a first calendar date. -/
def cD1 : Commit := ⟨"e1", "a", ⟨"Monday", "Mon Feb 05 2024"⟩⟩

/-- A commit on a second calendar date. -/
def cD2 : Commit := ⟨"e2", "b", ⟨"Tuesday", "Tue Feb 06 2024"⟩⟩

/-- A commit on a third calendar date. -/
def cD3 : Commit := ⟨"e3", "c", ⟨"Wednesday", "Wed Feb 07 2024"⟩⟩

/-- A commit on a fourth calendar date. -/
def cD4 : Commit := ⟨"e4", "d", ⟨"Thursday", "Thu Feb 08 2024"⟩⟩

/-- A 7-day window with 3 active days. -/
def collabC5a : Collab := ⟨Except.ok [cD1, cD2, cD3], fun _ => Except.ok "f.txt"⟩

/-- A 7-day window with 4 active days. -/
def collabC5b : Collab := ⟨Except.ok [cD1, cD2, cD3, cD4], fun _ => Except.ok "f.txt"⟩

/-- C5 witness: with `windowDays = 7` the encouragement sentence is present
for 3 active days (3 < 3.5) and absent for 4 active days (4 >= 3.5). -/
theorem narrate_encouragement_iff_inst :
    (encSentence (distinctDates [cD1, cD2, cD3]).length ∈
      narrateSummaryParts collabC5a 7 [cD1, cD2, cD3]) ∧
    (encSentence (distinctDates [cD1, cD2, cD3, cD4]).length ∈
      narrateSummaryParts collabC5b 7 [cD1, cD2, cD3, cD4] → False) := by
  constructor
  · exact (narrate_encouragement_iff collabC5a 7 [cD1, cD2, cD3] rfl
      (by decide)).2.1.mpr (by decide)
  · intro hmem
    have hc := (narrate_encouragement_iff collabC5b 7 [cD1, cD2, cD3, cD4] rfl
      (by decide)).2.1.mp hmem
    have hnc : ¬ (2 * (distinctDates [cD1, cD2, cD3, cD4]).length < 7) := by decide
    exact hnc hc

/-! ### Milestones (claim C6) -/

/-- C6: a commit is detected as a milestone exactly when its lower-cased
message contains "finish", "complete" or "done" as a substring; the first
at most 2 milestone commits (in retrieval order) are quoted in the summary,
joined with "and" when there are two. -/
theorem narrate_milestones_spec (collab : Collab) (days : Nat)
    (commits : List Commit) (h : collab.log = Except.ok commits)
    (hne : commits ≠ []) :
    (∀ c : Commit, isMilestone c = true ↔
      ((∃ l r, (toLowerStr c.message).data = l ++ ("finish".data ++ r)) ∨
       (∃ l r, (toLowerStr c.message).data = l ++ ("complete".data ++ r)) ∨
       (∃ l r, (toLowerStr c.message).data = l ++ ("done".data ++ r)))) ∧
    (∀ m, (commits.filter isMilestone).take 2 = [m] →
      milestoneSentence1 m ∈ narrateSummaryParts collab days commits) ∧
    (∀ m1 m2 tl, (commits.filter isMilestone).take 2 = m1 :: m2 :: tl →
      milestoneSentence2 m1 m2 ∈ narrateSummaryParts collab days commits) ∧
    (narrate collab days).summary =
      String.join (narrateSummaryParts collab days commits) := by
  refine ⟨?_, ?_, ?_, ?_⟩
  · intro c
    unfold isMilestone strContainsB
    simp only [Bool.or_eq_true]
    rw [occursIn_iff, occursIn_iff, occursIn_iff]
    exact or_assoc
  · intro m hm
    unfold narrateSummaryParts
    refine List.mem_append.mpr (Or.inr ?_)
    unfold milestoneFrag
    rw [hm]
    exact List.mem_singleton.mpr rfl
  · intro m1 m2 tl hm
    unfold narrateSummaryParts
    refine List.mem_append.mpr (Or.inr ?_)
    unfold milestoneFrag
    rw [hm]
    exact List.mem_singleton.mpr rfl
  · rw [narrate_ok_eq collab days commits h hne]

/-- A commit whose message is "Finish chapter 3". -/
def cMil : Commit := ⟨"g1", "Finish chapter 3", ⟨"Sunday", "Sun Mar 03 2024"⟩⟩

/-- A window containing the "Finish chapter 3" commit. -/
def collabC6 : Collab := ⟨Except.ok [cMil], fun _ => Except.ok "ch3.md"⟩

/-- C6 witness: "Finish chapter 3" is detected case-insensitively and its
quoted milestone sentence appears among the summary fragments. -/
theorem narrate_milestones_spec_inst :
    isMilestone cMil = true ∧
    milestoneSentence1 cMil ∈ narrateSummaryParts collabC6 7 [cMil] := by
  have h := narrate_milestones_spec collabC6 7 [cMil] rfl (by decide)
  exact ⟨(h.1 cMil).mpr (Or.inl ⟨[], " chapter 3".data, by decide⟩),
    h.2.1 cMil (by decide)⟩

/-! ### Nested hidden files (claim C10) -/

/-- The single commit of the C10 window. -/
def soloCommit : Commit := ⟨"s1", "touch", ⟨"Monday", "Mon Apr 01 2024"⟩⟩

/-- A window with one commit whose diff reports exactly the path `p`. -/
def soloCollab (p : String) : Collab :=
  ⟨Except.ok [soloCommit], fun _ => Except.ok p⟩

/-- C10: the hidden-file exclusion looks only at the leading character of
the full path (plus the `.DS_Store` substring test): a path whose final
segment is hidden but which sits under a visible directory is kept by the
filter and appears in `topFiles`. -/
theorem narrate_hidden_nested_included (p : String) (days : Nat)
    (h1 : startsWithDot p = false)
    (h2 : strContainsB p ".DS_Store" = false)
    (h3 : startsWithDot (lastSegment p) = true)
    (h4 : splitOnChar '\n' p.data = [p.data])
    (h5 : trimChars p.data ≠ []) :
    keepFile p = true ∧
    (narrate (soloCollab p) days).stats.topFiles = [⟨lastSegment p, p, 1⟩] := by
  have hk : keepFile p = true := by
    unfold keepFile
    rw [h1, h2]
    rfl
  refine ⟨hk, ?_⟩
  rw [narrate_ok_eq (soloCollab p) days [soloCommit] rfl (by simp)]
  show topFilesOf (analyzeCommits (soloCollab p) [soloCommit]).2 = _
  have hdf : diffFiles p = [p] := by
    unfold diffFiles
    rw [h4]
    simp [h5]
  have han : (analyzeCommits (soloCollab p) [soloCommit]).2 = [(p, 1)] := by
    show ((diffFiles p).foldl bump []) = [(p, 1)]
    rw [hdf]
    rfl
  rw [han]
  unfold topFilesOf
  rw [show ([((p : String), (1 : Nat))].filter (fun e => keepFile e.1)) = [(p, 1)] by
    simp [hk]]
  rfl

/-- C10 witness: `src/.env` (hidden final segment under a visible
directory) passes the filter and appears in `topFiles`. -/
theorem narrate_hidden_nested_included_inst :
    keepFile "src/.env" = true ∧
    (narrate (soloCollab "src/.env") 7).stats.topFiles =
      [⟨".env", "src/.env", 1⟩] := by
  have h := narrate_hidden_nested_included "src/.env" 7 (by decide) (by decide)
    (by decide) (by decide) (by decide)
  refine ⟨h.1, ?_⟩
  rw [h.2]
  decide
